import Mathlib

/-!
# Verification of the IedereenOveral listing-only extractor

A shallow embedding of the crawl-and-extract engine (`scripts/extract.mjs`):
the per-anchor heuristics (`pickTitle`, `pickDescription`, `pickPreviewImage`,
`isDecorationImg`), the URL helpers (`normalizeUrl`, `stripQueryHash`,
`parseKey`), the cross-page record merger of `discoverAllEntries`, the
next-page decision of `clickNextListingPage`, and the output step of `main`.

JavaScript value conventions are modelled explicitly:
* a nullable string is `Option String`; JS truthiness (`null` and `""` are
  falsy) is `jsTruthy`, and the `a || b` idiom on nullable strings is `jsOr`
  (for `a || b || null`) and `jsOr2` (for a plain `a || b`);
* `String(x)` applied to a possibly-null attribute value is `jsStringOfAttr`
  (JS renders `null` as `"null"`);
* a JS `Map` keyed by strings, with insertion-order iteration, is an
  association list `MapL` with `mapGet`/`mapSet`.

The embedding assumes strings contain no `'\n'` (URLs and normalized text
lines never do), so the JS regex end-anchor `$` and `.` are modelled as plain
end-of-string and any-character.
-/

namespace Extractor

/-- JS truthiness of a nullable string: `null` and `""` are falsy. -/
def jsTruthy : Option String → Bool
  | none => false
  | some s => !s.isEmpty

/-- The JS idiom `a || b || null` on nullable strings. -/
def jsOr (a b : Option String) : Option String :=
  if jsTruthy a then a else if jsTruthy b then b else none

/-- The JS idiom `a || b` on nullable strings (no trailing `|| null`). -/
def jsOr2 (a b : Option String) : Option String :=
  if jsTruthy a then a else b

/-- `String(v)` for an attribute value that may be `null`. -/
def jsStringOfAttr : Option String → String
  | none => "null"
  | some v => v

/-- `normalizeSpace` in `extract.mjs`: `String(s||"").replace(/\s+/g," ").trim()`.
Collapse every whitespace run to one space, then trim. -/
def collapseWS : List Char → List Char
  | [] => []
  | c :: rest =>
    (if c.isWhitespace then ' ' else c) :: collapseWS rest

/-- Remove one of each pair of adjacent spaces. -/
def squeezeSpaces : List Char → List Char
  | [] => []
  | [c] => [c]
  | a :: b :: rest =>
    if a == ' ' && b == ' ' then squeezeSpaces (b :: rest)
    else a :: squeezeSpaces (b :: rest)

def trimSpaces (l : List Char) : List Char :=
  ((l.dropWhile (· == ' ')).reverse.dropWhile (· == ' ')).reverse

def normalizeSpace (s : String) : String :=
  String.mk (trimSpaces (squeezeSpaces (collapseWS s.toList)))

/-- `normalizeUrl` in `extract.mjs`: append a trailing slash when absent
(`u.endsWith("/")` is the check of the last character). -/
def normalizeUrl (u : String) : String :=
  if u.toList.getLast? == some '/' then u else u ++ "/"

/-- JS word character (`\w` = `[A-Za-z0-9_]`). -/
def isWordChar (c : Char) : Bool :=
  c.isAlphanum || c == '_'

/-- The test `/\b\d{4}\b/.test(t)` in `pickTitle`/`pickDescription`: some run
of exactly four digits bounded by word boundaries (neighbour absent or not a
word character). -/
def isPostalLine (t : String) : Bool :=
  let cs := t.toList
  (List.range cs.length).any fun i =>
    decide (i + 4 ≤ cs.length) &&
    ((cs.drop i).take 4).all Char.isDigit &&
    (i == 0 || !isWordChar (cs.getD (i - 1) ' ')) &&
    (i + 4 == cs.length || !isWordChar (cs.getD (i + 4) ' '))

/-- The normalized non-empty text lines of the paragraphs inside an anchor:
`[...a.querySelectorAll("p.ww-text-content, p")].map(p => norm(p.textContent)).filter(Boolean)`. -/
def anchorLines (texts : List String) : List String :=
  (texts.map normalizeSpace).filter (fun s => !s.isEmpty)

/-- `pickTitle` in `extract.mjs`, as a function of the anchor's paragraph
texts: first line that is not a postal line and is at most 80 characters;
otherwise the very first line; otherwise null. -/
def pickTitle (texts : List String) : Option String :=
  let ps := anchorLines texts
  match ps.find? (fun t => !isPostalLine t && decide (t.length ≤ 80)) with
  | some best => some best
  | none => ps.head?

/-- `pickDescription` in `extract.mjs`: prefer a postal line; otherwise the
first line different from the chosen title of length at most 120; otherwise
null. -/
def pickDescription (texts : List String) (title : Option String) : Option String :=
  let ps := anchorLines texts
  match ps.find? isPostalLine with
  | some postal => some postal
  | none => ps.find? (fun t => decide (some t ≠ title) && decide (t.length ≤ 120))

/-- `w` is a prefix of `s` (on character lists). -/
def hasPrefixChars : List Char → List Char → Bool
  | [], _ => true
  | _ :: _, [] => false
  | a :: w, b :: s => a == b && hasPrefixChars w s

/-- `w` occurs as a contiguous substring of `s` (on character lists). -/
def hasInfixChars (w : List Char) : List Char → Bool
  | [] => w.isEmpty
  | c :: rest => hasPrefixChars w (c :: rest) || hasInfixChars w rest

/-- Lower-cased characters of a string (JS `toLowerCase` for the ASCII
alternatives these regexes use). -/
def lowerChars (s : String) : List Char :=
  s.toList.map Char.toLower

/-- Case-insensitive substring test, for the JS regexes of the form
`/word1|word2|.../i.test(s)` whose alternatives are plain ASCII words. -/
def containsCI (s w : String) : Bool :=
  hasInfixChars (lowerChars w) (lowerChars s)

/-- Case-insensitive prefix test, for `/^prefix/i.test(s)`. -/
def startsWithCI (s w : String) : Bool :=
  hasPrefixChars (lowerChars w) (lowerChars s)

/-- `isDecorationImg(src, alt)` in `extract.mjs`:
medal words in src or alt, icon-like words in src, or a local `images/` src. -/
def isDecorationImg (src alt : String) : Bool :=
  (["goud", "zilver", "brons", "medaille"].any fun w => containsCI src w) ||
  (["goud", "zilver", "brons", "medaille"].any fun w => containsCI alt w) ||
  (["icon", "logo", "favicon", "precomposed", "sprite", "apple-touch"].any
    fun w => containsCI src w) ||
  startsWithCI src "images/"

/-- An `<img>` inside an anchor: its `src` and `alt` attributes, each possibly
absent (`getAttribute` returns `null`). -/
structure Img where
  src : Option String
  alt : Option String
deriving DecidableEq, Repr

/-- The test `/xano\.io|thumbnail_|tpl=big/i.test(src)` in `pickPreviewImage`. -/
def isPreferredThumb (src : String) : Bool :=
  containsCI src "xano.io" || containsCI src "thumbnail_" || containsCI src "tpl=big"

/-- The two early returns shared by both predicates in `pickPreviewImage`
(`if (!src) return false; if (isDecorationImg(src, alt)) return false;`):
the image has a non-empty `src` and is not decorative. -/
def imgUsable (img : Img) : Bool :=
  !(img.src.getD "").isEmpty && !isDecorationImg (img.src.getD "") (img.alt.getD "")

/-- `pickPreviewImage(a)` in `extract.mjs`, as a function of the anchor's
`<img>` elements in document order: first usable image whose `src` matches
the thumbnail convention, else first usable image, else null. -/
def pickPreviewImage (imgs : List Img) : Option String :=
  match imgs.find? (fun img => imgUsable img && isPreferredThumb (img.src.getD "")) with
  | some img =>
    -- `return prefer.getAttribute("src") || null`
    if jsTruthy img.src then img.src else none
  | none =>
    match imgs.find? imgUsable with
    | some img => img.src    -- `cand.getAttribute("src")`
    | none => none

/-- `stripQueryHash` in `extract.mjs` clears the query and hash of a parsed
URL and re-serializes it; on a parse failure the input is returned unchanged.
Modelled for the http(s) URLs the crawl produces: when the string starts with
`http://` or `https://` (the parse succeeds), everything from the first `?`
or `#` on is dropped; otherwise the string is returned unchanged. The WHATWG
re-serialization is the identity on the already-normalized absolute URLs this
program feeds it. -/
def stripQueryHash (url : String) : String :=
  if startsWithCI url "http://" || startsWithCI url "https://" then
    String.mk (url.toList.takeWhile fun c => c != '?' && c != '#')
  else url

/-- The key of the cross-page map in `discoverAllEntries`:
`normalizeUrl(stripQueryHash(e.url))`. -/
def cleanEntryUrl (u : String) : String :=
  normalizeUrl (stripQueryHash u)

/-- The result of `parseKey`. -/
structure KeyInfo where
  key : Option String
  id : Option String
  slug : Option String
deriving DecidableEq, Repr

/-- Drop the optional trailing slash the regex's `\/?$` consumes. -/
def stripTrailSlash (cs : List Char) : List Char :=
  if cs.getLast? == some '/' then cs.dropLast else cs

/-- The maximal slash-free suffix of the slash-stripped URL: the candidate
for the regex's `[^/]+` capture. -/
def lastSeg (cs : List Char) : List Char :=
  ((stripTrailSlash cs).reverse.takeWhile (fun c => c != '/')).reverse

/-- What precedes `lastSeg`. -/
def beforeSeg (cs : List Char) : List Char :=
  ((stripTrailSlash cs).reverse.dropWhile (fun c => c != '/')).reverse

/-- The match `url.match(/\/locaties\/([^/]+)\/?$/)`: the URL, after dropping
one optional trailing slash, must end in `/locaties/` followed by a non-empty
slash-free segment; that segment is the captured key. (`[^/]+` is greedy and
slash-free, so when a match exists it is this final segment.) -/
def matchLocatiesSuffix (url : String) : Option String :=
  if decide (0 < (lastSeg url.toList).length) &&
      hasPrefixChars ("/locaties/".toList).reverse (beforeSeg url.toList).reverse then
    some (String.mk (lastSeg url.toList))
  else none

/-- The match `key.match(/^(\d{5})-(.+)$/)`: exactly five digits, a hyphen,
then a non-empty remainder. -/
def idSlugMatch (k : String) : Option (String × String) :=
  match k.toList with
  | a :: b :: c :: d :: e :: f :: rest =>
    if a.isDigit && b.isDigit && c.isDigit && d.isDigit && e.isDigit &&
        f == '-' && !rest.isEmpty then
      some (String.mk [a, b, c, d, e], String.mk rest)
    else none
  | _ => none

/-- The result of `parseKey` once the key segment matched: `id` and `slug`
from the five-digit match, when it succeeds. -/
def keyInfoOfSeg (k : String) : KeyInfo :=
  match idSlugMatch k with
  | some p => ⟨some k, some p.1, some p.2⟩
  | none => ⟨some k, none, none⟩

/-- `parseKey(url)` in `extract.mjs`. -/
def parseKey (url : String) : KeyInfo :=
  match matchLocatiesSuffix url with
  | none => ⟨none, none, none⟩
  | some key => keyInfoOfSeg key

/-- A ListingRecord as pushed by `collectEntriesOnCurrentListingPage`:
`{ url, title, description, image }` with nullable text fields. -/
structure ListingRecord where
  url : String
  title : Option String
  description : Option String
  image : Option String
deriving DecidableEq, Repr

/-- Records the extractor actually produces have fields that are either null
or non-empty (titles and descriptions come from `filter(Boolean)` lines,
images from non-empty `src` attributes). -/
def WFrec (e : ListingRecord) : Prop :=
  e.title ≠ some "" ∧ e.description ≠ some "" ∧ e.image ≠ some ""

instance (e : ListingRecord) : Decidable (WFrec e) := by
  unfold WFrec; infer_instance

/-- A JS `Map` from strings to records: an association list with unique keys,
iterated in insertion order. -/
abbrev MapL := List (String × ListingRecord)

/-- `m.get(k)` on a JS `Map`. -/
def mapGet (m : MapL) (k : String) : Option ListingRecord :=
  (m.find? (fun p => p.1 == k)).map Prod.snd

/-- `m.set(k, v)` on a JS `Map`: replace in place when the key exists
(keys are unique, so replacing the first occurrence suffices), append
otherwise. -/
def mapSet (m : MapL) (k : String) (v : ListingRecord) : MapL :=
  match m with
  | [] => [(k, v)]
  | a :: t => if a.1 == k then (k, v) :: t else a :: mapSet t k v

/-- One step of the cross-page fold in `discoverAllEntries` (lines 328-337):
`all.set(cleanUrl, { url: cleanUrl, title: prev?.title || e.title || null, ... })`,
with `cleanUrl = normalizeUrl(stripQueryHash(e.url))` and
`prev = all.get(cleanUrl)` inlined. -/
def mergeStep (all : MapL) (e : ListingRecord) : MapL :=
  mapSet all (cleanEntryUrl e.url)
    { url := cleanEntryUrl e.url
      title := jsOr ((mapGet all (cleanEntryUrl e.url)).bind (·.title)) e.title
      description := jsOr ((mapGet all (cleanEntryUrl e.url)).bind (·.description)) e.description
      image := jsOr ((mapGet all (cleanEntryUrl e.url)).bind (·.image)) e.image }

/-- The fold of one page's entries (or several pages' concatenated entries)
into the running map. -/
def mergeEntries (all : MapL) (es : List ListingRecord) : MapL :=
  es.foldl mergeStep all

/-- `l.foldl jsOr none`: the first truthy value of the list, or `none`. -/
def firstTruthy (l : List (Option String)) : Option String :=
  l.foldl jsOr none

/-- The in-page de-dupe of `collectEntriesOnCurrentListingPage`
(lines 293-307): same map shape, `prev.title || e.title` without `|| null`,
and the key is the entry's `url` itself (already normalized in-page). -/
def dedupeStep (m : MapL) (e : ListingRecord) : MapL :=
  match mapGet m e.url with
  | none => mapSet m e.url e
  | some prev =>
    mapSet m e.url
      { url := e.url
        title := jsOr2 prev.title e.title
        description := jsOr2 prev.description e.description
        image := jsOr2 prev.image e.image }

/-- The comparator `(a, b) => a.url.localeCompare(b.url)` modelled as
lexicographic order on the URL strings. -/
def byUrlLE (a b : ListingRecord) : Bool :=
  decide (a.url ≤ b.url)

/-- The final step of `discoverAllEntries` (lines 350-351): sort the map's
values by URL ascending, then truncate when `maxLocations > 0`. JS
`Array.prototype.sort` is a stable sort, modelled by `List.mergeSort`. -/
def finalizeItems (maxLocations : Nat) (all : MapL) : List ListingRecord :=
  let items := (all.map Prod.snd).mergeSort byUrlLE
  if 0 < maxLocations then items.take maxLocations else items

/-- Everything `clickNextListingPage` observes of the live page, in the order
it reads it: the nav and button locators, the `aria-disabled` attribute, the
success of the click (direct, then via the ancestor `li`), and the two
signals re-read after the bounded waits. -/
structure NextPageObs where
  hasNav : Bool
  beforeNum : Option Nat
  beforeFirstHref : Option String
  nextBtnFound : Bool
  ariaDisabled : Option String
  clickOk : Bool
  liFound : Bool
  liClickOk : Bool
  afterNum : Option Nat
  afterFirstHref : Option String
deriving DecidableEq, Repr

/-- What `clickNextListingPage` did: its boolean return value, and whether a
click was ever invoked on the control (directly or on its ancestor `li`). -/
structure ClickResult where
  advanced : Bool
  clickInvoked : Bool
deriving DecidableEq, Repr

/-- The final decision of `clickNextListingPage` (lines 166-170) after the
click: the two bounded waits (page-number change, first-href change) swallow
their timeouts and produce no value; the code then re-reads the page-number
indicator and returns `false` iff both readings are numbers and equal. -/
def afterAdvanceDecision (o : NextPageObs) : Bool :=
  !(o.beforeNum.isSome && o.afterNum.isSome && o.beforeNum == o.afterNum)

/-- `clickNextListingPage(page)` (lines 100-171) as a function of the page
observations. -/
def clickNextListingPage (o : NextPageObs) : ClickResult :=
  if !o.hasNav then ⟨false, false⟩
  else if !o.nextBtnFound then ⟨false, false⟩
  else if lowerChars (jsStringOfAttr o.ariaDisabled) == "true".toList then ⟨false, false⟩
  else if o.clickOk then ⟨afterAdvanceDecision o, true⟩
  else if o.liFound then
    if o.liClickOk then ⟨afterAdvanceDecision o, true⟩
    else ⟨false, true⟩
  else ⟨false, true⟩

/-- One listing page as the crawl loop sees it: the entries
`collectEntriesOnCurrentListingPage` returns there, and the observations
driving `clickNextListingPage` afterwards. -/
structure CrawlPage where
  entries : List ListingRecord
  next : NextPageObs
deriving Repr

/-- The `while (true)` loop of `discoverAllEntries` (lines 322-348), driven
by a script of page observations: merge the page's entries, stop on either
cap, otherwise advance iff `clickNextListingPage` returns `true`. An
exhausted script stands for a session whose next activation never again
succeeds. -/
def crawlLoop (maxLocations maxListingPages : Nat) :
    List CrawlPage → MapL → Nat → MapL
  | [], all, _ => all
  | p :: rest, all, pageCount =>
    let pageCount := pageCount + 1
    let all := mergeEntries all p.entries
    if 0 < maxLocations ∧ maxLocations ≤ all.length then all
    else if 0 < maxListingPages ∧ maxListingPages ≤ pageCount then all
    else if (clickNextListingPage p.next).advanced then
      crawlLoop maxLocations maxListingPages rest all pageCount
    else all

/-- `discoverAllEntries` (lines 311-355): the crawl loop from an empty map,
then sort and truncate. -/
def discoverAllEntriesModel (maxLocations maxListingPages : Nat)
    (pages : List CrawlPage) : List ListingRecord :=
  finalizeItems maxLocations (crawlLoop maxLocations maxListingPages pages [] 0)

/-- The output record built in `main` (lines 381-391). -/
structure CanonicalRecord where
  url : String
  key : Option String
  id : Option String
  slug : Option String
  title : String
  description : Option String
  image : Option String
  canonical : String
deriving DecidableEq, Repr

/-- `e.title || keyInfo.key || e.url`: the JS `||` chain returns its last
operand when all earlier ones are falsy. -/
def jsOrStr (a b : Option String) (c : String) : String :=
  if jsTruthy a then a.getD "" else if jsTruthy b then b.getD "" else c

/-- The per-entry output mapping of `main`. -/
def toBuilding (e : ListingRecord) : CanonicalRecord :=
  let k := parseKey e.url
  { url := e.url
    key := k.key
    id := k.id
    slug := k.slug
    title := jsOrStr e.title k.key e.url
    description := jsOr e.description none
    image := jsOr e.image none
    canonical := e.url }

/-- What `main` (lines 375-394) does once the crawl has returned: exit with
code 2 writing nothing when zero records were discovered, otherwise write
the mapped array. -/
inductive MainOutcome where
  | fatalExit (code : Nat)
  | wrote (records : List CanonicalRecord)
deriving DecidableEq, Repr

def mainOutcome (entries : List ListingRecord) : MainOutcome :=
  if entries.length = 0 then MainOutcome.fatalExit 2
  else MainOutcome.wrote (entries.map toBuilding)

/-! ### Spec-side definitions, for the refinement-style claims

These follow the spec's words, to be compared with the functions embedded
from the source. -/

/-- The spec's title rule, in its own words: collect the lines, deprioritize
those matching the postal pattern, among the remaining prefer the first no
longer than 80 characters, else fall back to the very first line, or null. -/
def specTitle (ps : List String) : Option String :=
  match (ps.filter (fun t => !isPostalLine t)).find? (fun t => decide (t.length ≤ 80)) with
  | some t => some t
  | none => ps.head?

/-- The spec's cross-page merge rule, in its own words: the canonical record
of normalized URL `u` collects the sightings whose clean URL is `u` and, per
field, keeps the first non-null value (earlier non-null values are never
overwritten; a later sighting fills a field only when every earlier one left
it null); no sighting, no record. -/
def specMergedAt (es : List ListingRecord) (u : String) : Option ListingRecord :=
  if (es.filter (fun e => cleanEntryUrl e.url == u)).isEmpty then none
  else some ⟨u, ((es.filter (fun e => cleanEntryUrl e.url == u)).map (·.title)).findSome? id,
                ((es.filter (fun e => cleanEntryUrl e.url == u)).map (·.description)).findSome? id,
                ((es.filter (fun e => cleanEntryUrl e.url == u)).map (·.image)).findSome? id⟩

/-- The spec's image rule, in its own words: among the anchor's images,
exclude the decorative (and src-less) ones; among the remainder prefer the
first whose source matches the preview-CDN / thumbnail-naming convention;
otherwise take the first remaining image; otherwise null. -/
def specPreviewImage (imgs : List Img) : Option String :=
  match (imgs.filter imgUsable).find? (fun img => isPreferredThumb (img.src.getD "")) with
  | some img => img.src
  | none =>
    match (imgs.filter imgUsable).head? with
    | some img => img.src
    | none => none

/-- The merged record at `u` with JS-truthiness field folding (the exact
`||` semantics of the code); coincides with `specMergedAt` on well-formed
sightings. -/
def truthyMergedAt (es : List ListingRecord) (u : String) : Option ListingRecord :=
  if (es.filter (fun e => cleanEntryUrl e.url == u)).isEmpty then none
  else some ⟨u, firstTruthy ((es.filter (fun e => cleanEntryUrl e.url == u)).map (·.title)),
                firstTruthy ((es.filter (fun e => cleanEntryUrl e.url == u)).map (·.description)),
                firstTruthy ((es.filter (fun e => cleanEntryUrl e.url == u)).map (·.image))⟩

/-! ### Helper lemmas -/

theorem jsTruthy_none : jsTruthy none = false := rfl

theorem jsOr_pos (a b : Option String) (h : jsTruthy a = true) : jsOr a b = a := by
  simp [jsOr, h]

theorem jsOr_neg (a b : Option String) (h : jsTruthy a = false) :
    jsOr a b = if jsTruthy b then b else none := by
  simp [jsOr, h]

theorem jsOr_idem_chain (a : Option String) : jsOr (jsOr none a) a = jsOr none a := by
  cases h : jsTruthy a with
  | false => simp [jsOr, jsTruthy_none, h]
  | true => simp [jsOr, jsTruthy_none, h]

theorem jsOr_comm_compat (a b : Option String)
    (h : jsTruthy a = true → jsTruthy b = true → a = b) :
    jsOr (jsOr none a) b = jsOr (jsOr none b) a := by
  cases ha : jsTruthy a with
  | false =>
    cases hb : jsTruthy b with
    | false => simp [jsOr, jsTruthy_none, ha, hb]
    | true => simp [jsOr, jsTruthy_none, ha, hb]
  | true =>
    cases hb : jsTruthy b with
    | false => simp [jsOr, jsTruthy_none, ha, hb]
    | true => rw [h ha hb]

theorem foldl_jsOr_truthy (l : List (Option String)) (acc : Option String)
    (h : jsTruthy acc = true) : l.foldl jsOr acc = acc := by
  induction l with
  | nil => rfl
  | cons x t ih =>
    have hx : jsOr acc x = acc := jsOr_pos acc x h
    rw [List.foldl_cons, hx, ih]

theorem isEmpty_false_of_ne (s : String) (hs : s ≠ "") : s.isEmpty = false := by
  cases hc : s.isEmpty with
  | false => rfl
  | true => exact absurd ((String.isEmpty_iff _).mp hc) hs

theorem jsTruthy_some (s : String) (hs : s ≠ "") : jsTruthy (some s) = true := by
  show (!s.isEmpty) = true
  rw [isEmpty_false_of_ne s hs]
  rfl

theorem firstTruthy_eq_findSome (l : List (Option String))
    (h : ∀ x ∈ l, x ≠ some "") : firstTruthy l = l.findSome? id := by
  induction l with
  | nil => rfl
  | cons a t ih =>
    cases a with
    | none =>
      have h1 : firstTruthy (none :: t) = firstTruthy t := by
        unfold firstTruthy
        rw [List.foldl_cons]
        rfl
      rw [h1, List.findSome?_cons]
      exact ih fun x hx => h x (List.mem_cons_of_mem _ hx)
    | some s =>
      have hs : s ≠ "" := by
        intro hc
        exact (h (some s) (List.mem_cons_self _ _)) (by rw [hc])
      have htr : jsTruthy (some s) = true := jsTruthy_some s hs
      have h1 : firstTruthy (some s :: t) = some s := by
        unfold firstTruthy
        rw [List.foldl_cons, jsOr_neg none (some s) jsTruthy_none, if_pos htr]
        exact foldl_jsOr_truthy t (some s) htr
      rw [h1, List.findSome?_cons]
      rfl

theorem find?_filter_and {α : Type} (xs : List α) (p q : α → Bool) :
    (xs.filter p).find? q = xs.find? (fun a => p a && q a) := by
  induction xs with
  | nil => rfl
  | cons a t ih =>
    by_cases hp : p a = true <;> by_cases hq : q a = true <;>
      simp [List.filter_cons, List.find?, hp, hq, ih]

theorem find?_eq_head?_filter {α : Type} (xs : List α) (p : α → Bool) :
    xs.find? p = (xs.filter p).head? := by
  induction xs with
  | nil => rfl
  | cons a t ih =>
    by_cases hp : p a = true
    · rw [List.find?_cons_of_pos _ hp, List.filter_cons, if_pos hp]
      rfl
    · rw [List.find?_cons_of_neg _ hp, List.filter_cons, if_neg hp]
      exact ih

theorem find?_isSome_of_any {α : Type} (xs : List α) (p : α → Bool)
    (h : xs.any p = true) : ∃ y, xs.find? p = some y := by
  induction xs with
  | nil =>
    rw [List.any_nil] at h
    exact Bool.noConfusion h
  | cons a t ih =>
    by_cases hp : p a = true
    · exact ⟨a, List.find?_cons_of_pos _ hp⟩
    · rw [List.any_cons, Bool.eq_false_iff.mpr hp, Bool.false_or] at h
      obtain ⟨y, hy⟩ := ih h
      exact ⟨y, by rw [List.find?_cons_of_neg _ hp]; exact hy⟩

theorem mapGet_nil (k : String) : mapGet [] k = none := rfl

theorem mapGet_cons (a : String × ListingRecord) (t : MapL) (k : String) :
    mapGet (a :: t) k = if a.1 == k then some a.2 else mapGet t k := by
  unfold mapGet
  by_cases h : (a.1 == k) = true
  · simp [List.find?_cons, h]
  · have hf := Bool.eq_false_iff.mpr h
    simp [List.find?_cons, hf, h]

theorem mapSet_nil (k : String) (v : ListingRecord) : mapSet [] k v = [(k, v)] := rfl

theorem mapSet_cons (a : String × ListingRecord) (t : MapL) (k : String) (v : ListingRecord) :
    mapSet (a :: t) k v = if a.1 == k then (k, v) :: t else a :: mapSet t k v := rfl

theorem mapGet_mapSet (m : MapL) (k k' : String) (v : ListingRecord) :
    mapGet (mapSet m k v) k' = if k == k' then some v else mapGet m k' := by
  induction m with
  | nil =>
    rw [mapSet_nil, mapGet_cons, mapGet_nil]
  | cons a t ih =>
    rw [mapSet_cons]
    by_cases hak : (a.1 == k) = true
    · rw [if_pos hak, mapGet_cons, mapGet_cons]
      by_cases hkk : (k == k') = true
      · rw [if_pos hkk, if_pos hkk]
      · have haf : ¬(a.1 == k') = true := by
          rw [eq_of_beq hak]; exact hkk
        rw [if_neg hkk, if_neg hkk, if_neg haf]
    · rw [if_neg hak, mapGet_cons, mapGet_cons, ih]
      by_cases hak' : (a.1 == k') = true
      · have hkk : ¬(k == k') = true := fun hc =>
          hak (by rw [eq_of_beq hc]; exact hak')
        rw [if_pos hak', if_neg hkk, if_pos hak']
      · rw [if_neg hak', if_neg hak']

theorem mapGet_mergeStep (M : MapL) (e : ListingRecord) (u : String) :
    mapGet (mergeStep M e) u =
      if cleanEntryUrl e.url == u then
        some { url := cleanEntryUrl e.url
               title := jsOr ((mapGet M (cleanEntryUrl e.url)).bind (·.title)) e.title
               description :=
                 jsOr ((mapGet M (cleanEntryUrl e.url)).bind (·.description)) e.description
               image := jsOr ((mapGet M (cleanEntryUrl e.url)).bind (·.image)) e.image }
      else mapGet M u := by
  unfold mergeStep
  exact mapGet_mapSet M (cleanEntryUrl e.url) u _

theorem mergeEntries_concat (all : MapL) (es : List ListingRecord) (e : ListingRecord) :
    mergeEntries all (es ++ [e]) = mergeStep (mergeEntries all es) e :=
  List.foldl_concat mergeStep all e es

theorem firstTruthy_nil : firstTruthy [] = none := rfl

theorem firstTruthy_concat (l : List (Option String)) (a : Option String) :
    firstTruthy (l ++ [a]) = jsOr (firstTruthy l) a := by
  unfold firstTruthy
  rw [List.foldl_concat]

theorem mergeEntries_get (es : List ListingRecord) (u : String) :
    mapGet (mergeEntries [] es) u = truthyMergedAt es u := by
  induction es using List.reverseRecOn with
  | nil => rfl
  | append_singleton es e ih =>
    rw [mergeEntries_concat, mapGet_mergeStep]
    by_cases hm : (cleanEntryUrl e.url == u) = true
    · have hq : cleanEntryUrl e.url = u := eq_of_beq hm
      rw [if_pos hm, hq, ih]
      unfold truthyMergedAt
      rw [List.filter_append,
        show List.filter (fun x => cleanEntryUrl x.url == u) [e] = [e] by
          simp [List.filter_cons, hm]]
      rw [if_neg (show ¬((List.filter (fun x => cleanEntryUrl x.url == u) es
          ++ [e]).isEmpty = true) by simp [List.isEmpty_iff])]
      rw [List.map_append, List.map_append, List.map_append]
      rw [show List.map (fun x : ListingRecord => x.title) [e] = [e.title] from rfl,
          show List.map (fun x : ListingRecord => x.description) [e] = [e.description] from rfl,
          show List.map (fun x : ListingRecord => x.image) [e] = [e.image] from rfl]
      rw [firstTruthy_concat, firstTruthy_concat, firstTruthy_concat]
      by_cases hl : (List.filter (fun x => cleanEntryUrl x.url == u) es).isEmpty = true
      · simp only [if_pos hl]
        rw [List.isEmpty_iff.mp hl]
        rfl
      · simp only [if_neg hl]
        rfl
    · rw [if_neg hm, ih]
      unfold truthyMergedAt
      rw [List.filter_append,
        show List.filter (fun x => cleanEntryUrl x.url == u) [e] = [] by
          simp [List.filter_cons, hm],
        List.append_nil]

theorem truthy_eq_spec (es : List ListingRecord) (u : String)
    (hwf : ∀ e ∈ es, WFrec e) : truthyMergedAt es u = specMergedAt es u := by
  unfold truthyMergedAt specMergedAt
  by_cases hl : (List.filter (fun e => cleanEntryUrl e.url == u) es).isEmpty = true
  · rw [if_pos hl, if_pos hl]
  · rw [if_neg hl, if_neg hl]
    have hmem : ∀ x ∈ List.filter (fun e => cleanEntryUrl e.url == u) es, WFrec x :=
      fun x hx => hwf x (List.mem_of_mem_filter hx)
    congr 1
    refine ListingRecord.mk.injEq _ _ _ _ _ _ _ _ ▸ ?_
    refine ⟨rfl, ?_, ?_, ?_⟩
    · exact firstTruthy_eq_findSome _ fun x hx => by
        obtain ⟨y, hy, hxy⟩ := List.mem_map.mp hx
        subst hxy
        exact (hmem y hy).1
    · exact firstTruthy_eq_findSome _ fun x hx => by
        obtain ⟨y, hy, hxy⟩ := List.mem_map.mp hx
        subst hxy
        exact (hmem y hy).2.1
    · exact firstTruthy_eq_findSome _ fun x hx => by
        obtain ⟨y, hy, hxy⟩ := List.mem_map.mp hx
        subst hxy
        exact (hmem y hy).2.2

theorem mergeEntries_single (A : ListingRecord) :
    mergeEntries [] [A] =
      [(cleanEntryUrl A.url,
        { url := cleanEntryUrl A.url
          title := jsOr none A.title
          description := jsOr none A.description
          image := jsOr none A.image })] := rfl

theorem mergeEntries_pair (A B : ListingRecord)
    (h : cleanEntryUrl B.url = cleanEntryUrl A.url) :
    mergeEntries [] [A, B] =
      [(cleanEntryUrl A.url,
        { url := cleanEntryUrl A.url
          title := jsOr (jsOr none A.title) B.title
          description := jsOr (jsOr none A.description) B.description
          image := jsOr (jsOr none A.image) B.image })] := by
  have h2 : mergeEntries [] [A, B] = mergeStep (mergeEntries [] [A]) B :=
    mergeEntries_concat [] [A] B
  rw [h2, mergeEntries_single]
  unfold mergeStep
  rw [h, mapGet_cons, if_pos (beq_self_eq_true (cleanEntryUrl A.url)),
    mapSet_cons, if_pos (beq_self_eq_true (cleanEntryUrl A.url))]
  rfl

theorem crawlLoop_stop (mx mp n : Nat) (es : List ListingRecord) (o : NextPageObs)
    (rest : List CrawlPage) (all : MapL)
    (hadv : (clickNextListingPage o).advanced = false)
    (h1 : ¬(0 < mx ∧ mx ≤ (mergeEntries all es).length))
    (h2 : ¬(0 < mp ∧ mp ≤ n + 1)) :
    crawlLoop mx mp (⟨es, o⟩ :: rest) all n = mergeEntries all es := by
  unfold crawlLoop
  rw [if_neg h1, if_neg h2, if_neg (by rw [hadv]; exact Bool.false_ne_true)]

theorem takeWhile_append_all (p : Char → Bool) (l₁ l₂ : List Char)
    (h : ∀ c ∈ l₁, p c = true) :
    (l₁ ++ l₂).takeWhile p = l₁ ++ l₂.takeWhile p := by
  induction l₁ with
  | nil => rfl
  | cons a t ih =>
    rw [List.cons_append, List.takeWhile_cons, h a (List.mem_cons_self _ _),
      ih fun c hc => h c (List.mem_cons_of_mem _ hc)]
    rfl

theorem dropWhile_append_all (p : Char → Bool) (l₁ l₂ : List Char)
    (h : ∀ c ∈ l₁, p c = true) :
    (l₁ ++ l₂).dropWhile p = l₂.dropWhile p := by
  induction l₁ with
  | nil => rfl
  | cons a t ih =>
    rw [List.cons_append, List.dropWhile_cons, h a (List.mem_cons_self _ _)]
    exact ih fun c hc => h c (List.mem_cons_of_mem _ hc)

theorem stripTrail_concat (l : List Char) : stripTrailSlash (l ++ ['/']) = l := by
  unfold stripTrailSlash
  rw [List.getLast?_concat, if_pos (beq_self_eq_true (some '/')), List.dropLast_concat]

theorem lastSeg_split (Q seg : List Char) (hns : ∀ c ∈ seg, (c != '/') = true) :
    lastSeg ((Q ++ ['/'] ++ seg) ++ ['/']) = seg ∧
    beforeSeg ((Q ++ ['/'] ++ seg) ++ ['/']) = Q ++ ['/'] := by
  have hrev : (Q ++ ['/'] ++ seg).reverse = seg.reverse ++ ('/' :: Q.reverse) := by
    rw [List.reverse_append, List.reverse_append]
    rfl
  have hmemrev : ∀ c ∈ seg.reverse, (c != '/') = true := by
    intro c hc
    exact hns c (List.mem_reverse.mp hc)
  constructor
  · unfold lastSeg
    rw [stripTrail_concat, hrev, takeWhile_append_all _ _ _ hmemrev]
    rw [show List.takeWhile (fun c => c != '/') ('/' :: Q.reverse) = [] by
      rw [List.takeWhile_cons]
      rfl]
    rw [List.append_nil, List.reverse_reverse]
  · unfold beforeSeg
    rw [stripTrail_concat, hrev, dropWhile_append_all _ _ _ hmemrev]
    rw [show List.dropWhile (fun c => c != '/') ('/' :: Q.reverse) = '/' :: Q.reverse by
      rw [List.dropWhile_cons]
      rfl]
    rw [List.reverse_cons, List.reverse_reverse]

theorem toList_append (s t : String) : (s ++ t).toList = s.toList ++ t.toList :=
  String.data_append s t

theorem hasPrefixChars_append_self (w l : List Char) : hasPrefixChars w (w ++ l) = true := by
  induction w with
  | nil => rfl
  | cons a t ih =>
    show (a == a && hasPrefixChars t (t ++ l)) = true
    rw [beq_self_eq_true, ih]
    rfl

theorem endsWith_append (w l : List Char) :
    hasPrefixChars w.reverse ((l ++ w).reverse) = true := by
  rw [List.reverse_append]
  exact hasPrefixChars_append_self _ _

theorem matchLocatiesSuffix_pos (pre : String) (seg : List Char)
    (hseg : seg ≠ []) (hns : ∀ c ∈ seg, (c != '/') = true) :
    matchLocatiesSuffix (pre ++ "/locaties/" ++ String.mk seg ++ "/") = some (String.mk seg) := by
  have hcs : (pre ++ "/locaties/" ++ String.mk seg ++ "/").toList =
      (pre.toList ++ ("/locaties".toList) ++ ['/'] ++ seg) ++ ['/'] := by
    rw [toList_append, toList_append, toList_append]
    show pre.toList ++ ("/locaties/".toList) ++ seg ++ ['/'] = _
    rw [show ("/locaties/".toList : List Char) = "/locaties".toList ++ ['/'] from rfl]
    simp [List.append_assoc]
  have hsplit := lastSeg_split (pre.toList ++ "/locaties".toList) seg hns
  unfold matchLocatiesSuffix
  rw [hcs]
  rw [show pre.toList ++ "/locaties".toList ++ ['/'] ++ seg =
      (pre.toList ++ "/locaties".toList) ++ ['/'] ++ seg by simp [List.append_assoc]]
  rw [hsplit.1, hsplit.2]
  rw [if_pos ?hc]
  case hc =>
    rw [decide_eq_true (List.length_pos.mpr hseg)]
    rw [show ((pre.toList ++ "/locaties".toList) ++ ['/'] : List Char)
        = pre.toList ++ "/locaties/".toList by
      rw [List.append_assoc]
      rfl]
    rw [endsWith_append]
    rfl

theorem idSlugMatch_pos (d₁ d₂ d₃ d₄ d₅ : Char) (slg : List Char)
    (h₁ : d₁.isDigit = true) (h₂ : d₂.isDigit = true) (h₃ : d₃.isDigit = true)
    (h₄ : d₄.isDigit = true) (h₅ : d₅.isDigit = true) (hs : slg ≠ []) :
    idSlugMatch (String.mk ([d₁, d₂, d₃, d₄, d₅] ++ '-' :: slg)) =
      some (String.mk [d₁, d₂, d₃, d₄, d₅], String.mk slg) := by
  have hemp : slg.isEmpty = false := by
    cases slg with
    | nil => exact absurd rfl hs
    | cons a t => rfl
  unfold idSlugMatch
  show (if d₁.isDigit && d₂.isDigit && d₃.isDigit && d₄.isDigit && d₅.isDigit &&
      ('-' == '-') && !slg.isEmpty then
    some (String.mk [d₁, d₂, d₃, d₄, d₅], String.mk slg) else none) = _
  rw [h₁, h₂, h₃, h₄, h₅, hemp]
  rfl

/-! ### The claims -/

/-- C1 counterexample: two sightings of the same normalized URL with
different non-null titles. Merging A then B keeps A's title, merging B then
A keeps B's title, so "merging A then B yields the same CanonicalRecord as
merging B then A" fails at this concrete input. -/
theorem claim1_counterexample :
    cleanEntryUrl (ListingRecord.mk "https://e/locaties/12345-a/" (some "x") none none).url =
      cleanEntryUrl (ListingRecord.mk "https://e/locaties/12345-a/" (some "y") none none).url ∧
    mergeEntries [] [ListingRecord.mk "https://e/locaties/12345-a/" (some "x") none none,
        ListingRecord.mk "https://e/locaties/12345-a/" (some "y") none none] ≠
      mergeEntries [] [ListingRecord.mk "https://e/locaties/12345-a/" (some "y") none none,
        ListingRecord.mk "https://e/locaties/12345-a/" (some "x") none none] := by
  decide

/-- C1 (amended): for sightings sharing the same normalized URL, the merge
of `discoverAllEntries` is idempotent (merging a record with itself yields
exactly the single-record merge), and it is commutative provided the two
records hold no conflicting non-null values: whenever both fields are truthy
they must agree. -/
theorem claim1_merge_comm_idem (A B : ListingRecord)
    (hurl : cleanEntryUrl A.url = cleanEntryUrl B.url)
    (hT : jsTruthy A.title = true → jsTruthy B.title = true → A.title = B.title)
    (hD : jsTruthy A.description = true → jsTruthy B.description = true →
      A.description = B.description)
    (hI : jsTruthy A.image = true → jsTruthy B.image = true → A.image = B.image) :
    mergeEntries [] [A, B] = mergeEntries [] [B, A] ∧
    mergeEntries [] [A, A] = mergeEntries [] [A] := by
  constructor
  · rw [mergeEntries_pair A B hurl.symm, mergeEntries_pair B A hurl, hurl,
      jsOr_comm_compat A.title B.title hT,
      jsOr_comm_compat A.description B.description hD,
      jsOr_comm_compat A.image B.image hI]
  · rw [mergeEntries_pair A A rfl, mergeEntries_single,
      jsOr_idem_chain, jsOr_idem_chain, jsOr_idem_chain]

/-- C1 witness: the amended theorem applied at a concrete compatible pair
(one record has only a title, the other only a description). -/
theorem claim1_witness :
    mergeEntries [] [ListingRecord.mk "https://e/locaties/12345-a/" (some "x") none none,
        ListingRecord.mk "https://e/locaties/12345-a/" none (some "d") none] =
      mergeEntries [] [ListingRecord.mk "https://e/locaties/12345-a/" none (some "d") none,
        ListingRecord.mk "https://e/locaties/12345-a/" (some "x") none none] ∧
    mergeEntries [] [ListingRecord.mk "https://e/locaties/12345-a/" (some "x") none none,
        ListingRecord.mk "https://e/locaties/12345-a/" (some "x") none none] =
      mergeEntries [] [ListingRecord.mk "https://e/locaties/12345-a/" (some "x") none none] :=
  claim1_merge_comm_idem _ _ (by decide) (by decide) (by decide) (by decide)

/-- C8: when the located "next" control carries `aria-disabled="true"`, the
controller returns `false` (Done) without ever invoking a click, and the
crawl loop then stops with exactly the records accumulated so far. -/
theorem claim8_disabled_no_click (o : NextPageObs)
    (hnav : o.hasNav = true) (hbtn : o.nextBtnFound = true)
    (hdis : lowerChars (jsStringOfAttr o.ariaDisabled) = "true".toList) :
    clickNextListingPage o = ⟨false, false⟩ ∧
    ∀ mx mp n (es : List ListingRecord) (rest : List CrawlPage) (all : MapL),
      ¬(0 < mx ∧ mx ≤ (mergeEntries all es).length) →
      ¬(0 < mp ∧ mp ≤ n + 1) →
      crawlLoop mx mp (CrawlPage.mk es o :: rest) all n = mergeEntries all es := by
  have hc : clickNextListingPage o = ⟨false, false⟩ := by
    unfold clickNextListingPage
    rw [hnav, hbtn]
    rw [show (lowerChars (jsStringOfAttr o.ariaDisabled) == "true".toList) = true by
      rw [hdis]; exact beq_self_eq_true _]
    rfl
  refine ⟨hc, ?_⟩
  intro mx mp n es rest all h1 h2
  exact crawlLoop_stop mx mp n es o rest all (by rw [hc]) h1 h2

/-- C8 witness: the theorem applied at a concrete page state whose "next"
control is `aria-disabled="true"`. -/
theorem claim8_witness :
    clickNextListingPage (NextPageObs.mk true (some 3) (some "https://e/locaties/11111-a/")
        true (some "true") true false false (some 3) (some "https://e/locaties/11111-a/")) =
      ClickResult.mk false false ∧
    ∀ mx mp n (es : List ListingRecord) (rest : List CrawlPage) (all : MapL),
      ¬(0 < mx ∧ mx ≤ (mergeEntries all es).length) →
      ¬(0 < mp ∧ mp ≤ n + 1) →
      crawlLoop mx mp (CrawlPage.mk es (NextPageObs.mk true (some 3)
          (some "https://e/locaties/11111-a/") true (some "true") true false false (some 3)
          (some "https://e/locaties/11111-a/")) :: rest) all n = mergeEntries all es :=
  claim8_disabled_no_click _ rfl rfl (by decide)

/-- C2 counterexample: a run in which the first-listing URL signal does
change after the click but the page-number indicator does not. The claim
says a change in either signal alone counts as successful advancement; the
code nevertheless reports failure, because its final decision re-reads only
the page-number indicator. -/
theorem claim2_counterexample :
    (clickNextListingPage (NextPageObs.mk true (some 3) (some "https://e/locaties/11111-a/")
        true none true false false (some 3) (some "https://e/locaties/22222-b/"))).advanced
      = false ∧
    (NextPageObs.mk true (some 3) (some "https://e/locaties/11111-a/")
        true none true false false (some 3) (some "https://e/locaties/22222-b/")).beforeFirstHref
      ≠ (NextPageObs.mk true (some 3) (some "https://e/locaties/11111-a/")
        true none true false false (some 3) (some "https://e/locaties/22222-b/")).afterFirstHref := by
  decide

/-- C2 (amended): after activating an enabled "next" control with a
successful click, the controller treats advancement as failed iff both the
before and after page-number readings are numbers and equal; the two
first-listing-URL observations have no effect on the decision (they are only
awaited); and on a failed advancement the crawl loop transitions to Done,
returning the accumulated records unchanged with the remaining script never
visited. -/
theorem claim2_advance_decision (o : NextPageObs)
    (hnav : o.hasNav = true) (hbtn : o.nextBtnFound = true)
    (hdis : lowerChars (jsStringOfAttr o.ariaDisabled) ≠ "true".toList)
    (hclick : o.clickOk = true) :
    ((clickNextListingPage o).advanced = false ↔
      ∃ n, o.beforeNum = some n ∧ o.afterNum = some n) ∧
    (∀ h h', clickNextListingPage
        { o with beforeFirstHref := h, afterFirstHref := h' } = clickNextListingPage o) ∧
    (∀ mx mp n (es : List ListingRecord) (rest : List CrawlPage) (all : MapL),
      (clickNextListingPage o).advanced = false →
      ¬(0 < mx ∧ mx ≤ (mergeEntries all es).length) →
      ¬(0 < mp ∧ mp ≤ n + 1) →
      crawlLoop mx mp (CrawlPage.mk es o :: rest) all n = mergeEntries all es) := by
  have hres : clickNextListingPage o = ⟨afterAdvanceDecision o, true⟩ := by
    unfold clickNextListingPage
    rw [hnav, hbtn, hclick]
    rw [show (lowerChars (jsStringOfAttr o.ariaDisabled) == "true".toList) = false from
      beq_eq_false_iff_ne.mpr hdis]
    rfl
  refine ⟨?_, ?_, ?_⟩
  · rw [hres]
    show afterAdvanceDecision o = false ↔ _
    unfold afterAdvanceDecision
    cases hb : o.beforeNum with
    | none => simp
    | some x =>
      cases ha : o.afterNum with
      | none => simp
      | some y =>
        rw [show ((some x).isSome && (some y).isSome && (some x == some y))
            = (some x == some y) from rfl]
        cases hbeq : (some x == some y) with
        | true =>
          have hxy : x = y := Option.some.inj (eq_of_beq hbeq)
          subst hxy
          constructor
          · intro _
            exact ⟨x, rfl, rfl⟩
          · intro _
            rfl
        | false =>
          have hxy : x ≠ y := by
            intro hc
            subst hc
            rw [beq_self_eq_true] at hbeq
            exact absurd hbeq (by decide)
          constructor
          · intro hcon
            exact absurd hcon (by decide)
          · rintro ⟨n, hn1, hn2⟩
            exact absurd ((Option.some.inj hn1).trans (Option.some.inj hn2).symm) hxy
  · intro h h'
    cases o
    rfl
  · intro mx mp n es rest all hadv h1 h2
    exact crawlLoop_stop mx mp n es o rest all hadv h1 h2

/-- C2 witness: the amended theorem applied at a concrete observation whose
page number stalls at 3. -/
theorem claim2_witness :
    ((clickNextListingPage (NextPageObs.mk true (some 3) (some "a") true none true false false
        (some 3) (some "b"))).advanced = false ↔
      ∃ n, (NextPageObs.mk true (some 3) (some "a") true none true false false
        (some 3) (some "b")).beforeNum = some n ∧
        (NextPageObs.mk true (some 3) (some "a") true none true false false
          (some 3) (some "b")).afterNum = some n) ∧
    (∀ h h', clickNextListingPage
        { NextPageObs.mk true (some 3) (some "a") true none true false false
            (some 3) (some "b") with beforeFirstHref := h, afterFirstHref := h' } =
      clickNextListingPage (NextPageObs.mk true (some 3) (some "a") true none true false false
        (some 3) (some "b"))) ∧
    (∀ mx mp n (es : List ListingRecord) (rest : List CrawlPage) (all : MapL),
      (clickNextListingPage (NextPageObs.mk true (some 3) (some "a") true none true false false
        (some 3) (some "b"))).advanced = false →
      ¬(0 < mx ∧ mx ≤ (mergeEntries all es).length) →
      ¬(0 < mp ∧ mp ≤ n + 1) →
      crawlLoop mx mp (CrawlPage.mk es (NextPageObs.mk true (some 3) (some "a") true none true
          false false (some 3) (some "b")) :: rest) all n = mergeEntries all es) :=
  claim2_advance_decision _ rfl rfl (by decide) rfl

/-- C3: folding well-formed sightings into the canonical map from empty, the
record stored under any normalized URL `u` is exactly the spec's merge: it
exists iff some sighting cleans to `u`, and each field holds the first
non-null value among those sightings in fold order (earlier non-null values
are never overwritten; a later non-null value fills a field only when every
earlier sighting left it null). -/
theorem claim3_first_nonnull_wins (es : List ListingRecord) (u : String)
    (hwf : ∀ e ∈ es, WFrec e) :
    mapGet (mergeEntries [] es) u = specMergedAt es u := by
  rw [mergeEntries_get, truthy_eq_spec es u hwf]

/-- C3 witness: the theorem applied to two sightings of one URL, the second
carrying a conflicting title and a new image: the title keeps the first
value, the image is filled from the second sighting. -/
theorem claim3_witness :
    mapGet (mergeEntries []
        [ListingRecord.mk "https://e/locaties/12345-a/" (some "t") none none,
         ListingRecord.mk "https://e/locaties/12345-a/" (some "other") none (some "img")])
      "https://e/locaties/12345-a/" =
    specMergedAt
        [ListingRecord.mk "https://e/locaties/12345-a/" (some "t") none none,
         ListingRecord.mk "https://e/locaties/12345-a/" (some "other") none (some "img")]
      "https://e/locaties/12345-a/" :=
  claim3_first_nonnull_wins _ _ (by decide)

/-- C4 counterexample: for a URL whose last `/locaties/` segment is not of
the form five digits, hyphen, slug, the code returns the raw segment as
`key` (here `some "abc"`), while the claim demands `key = null`. -/
theorem claim4_counterexample :
    parseKey "https://iedereen.overal.info/locaties/abc/" =
      KeyInfo.mk (some "abc") none none ∧
    (parseKey "https://iedereen.overal.info/locaties/abc/").key ≠ none := by
  decide

theorem digit_ne_slash (c : Char) (h : c.isDigit = true) : (c != '/') = true := by
  cases hb : (c == '/') with
  | false =>
    show (!(c == '/')) = true
    rw [hb]
    rfl
  | true =>
    have hc : c = '/' := eq_of_beq hb
    subst hc
    exact absurd h (by decide)

/-- C4 (amended): `key`, `id` and `slug` are parsed from the final
`/locaties/` path segment. When that segment is five digits, a hyphen and a
non-empty slug, all three are populated; when the URL has no such segment at
all, all three are null; but when the segment exists and merely fails the
five-digit shape, `key` is the raw segment (not null) while `id` and `slug`
are null. -/
theorem claim4_key_id_slug (pre slg : String) (d₁ d₂ d₃ d₄ d₅ : Char)
    (h₁ : d₁.isDigit = true) (h₂ : d₂.isDigit = true) (h₃ : d₃.isDigit = true)
    (h₄ : d₄.isDigit = true) (h₅ : d₅.isDigit = true)
    (hne : slg.toList ≠ []) (hns : ∀ c ∈ slg.toList, (c != '/') = true) :
    parseKey (pre ++ "/locaties/" ++ String.mk ([d₁, d₂, d₃, d₄, d₅] ++ '-' :: slg.toList) ++ "/")
      = KeyInfo.mk (some (String.mk ([d₁, d₂, d₃, d₄, d₅] ++ '-' :: slg.toList)))
          (some (String.mk [d₁, d₂, d₃, d₄, d₅])) (some slg) ∧
    (∀ url, matchLocatiesSuffix url = none → parseKey url = KeyInfo.mk none none none) ∧
    (∀ url k, matchLocatiesSuffix url = some k → (parseKey url).key = some k) ∧
    (∀ url k, matchLocatiesSuffix url = some k → idSlugMatch k = none →
      parseKey url = KeyInfo.mk (some k) none none) := by
  refine ⟨?_, ?_, ?_, ?_⟩
  · have hseg : ([d₁, d₂, d₃, d₄, d₅] ++ '-' :: slg.toList) ≠ [] := by
      intro hc
      exact List.cons_ne_nil _ _ hc
    have hns' : ∀ c ∈ ([d₁, d₂, d₃, d₄, d₅] ++ '-' :: slg.toList), (c != '/') = true := by
      intro c hc
      rw [List.mem_append] at hc
      cases hc with
      | inl h =>
        simp only [List.mem_cons, List.not_mem_nil, or_false] at h
        rcases h with rfl | rfl | rfl | rfl | rfl
        · exact digit_ne_slash _ h₁
        · exact digit_ne_slash _ h₂
        · exact digit_ne_slash _ h₃
        · exact digit_ne_slash _ h₄
        · exact digit_ne_slash _ h₅
      | inr h =>
        rcases List.mem_cons.mp h with rfl | h
        · decide
        · exact hns c h
    have hmatch := matchLocatiesSuffix_pos pre _ hseg hns'
    have hid := idSlugMatch_pos d₁ d₂ d₃ d₄ d₅ slg.toList h₁ h₂ h₃ h₄ h₅ hne
    unfold parseKey
    rw [hmatch]
    show keyInfoOfSeg _ = _
    unfold keyInfoOfSeg
    rw [hid]
    rfl
  · intro url h
    unfold parseKey
    rw [h]
  · intro url k h
    unfold parseKey
    rw [h]
    show (keyInfoOfSeg k).key = some k
    unfold keyInfoOfSeg
    cases idSlugMatch k with
    | none => rfl
    | some p => rfl
  · intro url k h hid
    unfold parseKey
    rw [h]
    show keyInfoOfSeg k = _
    unfold keyInfoOfSeg
    rw [hid]

/-- C4 witness: the amended theorem applied at the concrete URL
`https://iedereen.overal.info/locaties/12345-kroonrad/`. -/
theorem claim4_witness :
    parseKey ("https://iedereen.overal.info" ++ "/locaties/" ++
        String.mk (['1', '2', '3', '4', '5'] ++ '-' :: "kroonrad".toList) ++ "/")
      = KeyInfo.mk (some (String.mk (['1', '2', '3', '4', '5'] ++ '-' :: "kroonrad".toList)))
          (some (String.mk ['1', '2', '3', '4', '5'])) (some "kroonrad") ∧
    (∀ url, matchLocatiesSuffix url = none → parseKey url = KeyInfo.mk none none none) ∧
    (∀ url k, matchLocatiesSuffix url = some k → (parseKey url).key = some k) ∧
    (∀ url k, matchLocatiesSuffix url = some k → idSlugMatch k = none →
      parseKey url = KeyInfo.mk (some k) none none) :=
  claim4_key_id_slug "https://iedereen.overal.info" "kroonrad" '1' '2' '3' '4' '5'
    (by decide) (by decide) (by decide) (by decide) (by decide) (by decide) (by decide)

/-- C5: the crawl result is written only when at least one record was
discovered: zero records yield `process.exit(2)` (a non-zero code) and no
write; a written output always stems from a non-empty crawl and maps every
entry through the canonical-record construction. -/
theorem claim5_zero_records_fatal (entries : List ListingRecord) :
    (mainOutcome entries = MainOutcome.fatalExit 2 ↔ entries = []) ∧
    (∀ recs, mainOutcome entries = MainOutcome.wrote recs →
      1 ≤ entries.length ∧ recs = entries.map toBuilding) ∧
    (∀ c, mainOutcome entries = MainOutcome.fatalExit c → c ≠ 0) := by
  unfold mainOutcome
  by_cases h : entries.length = 0
  · have he : entries = [] := List.length_eq_zero.mp h
    rw [if_pos h]
    refine ⟨⟨fun _ => he, fun _ => rfl⟩, ?_, ?_⟩
    · intro recs hcon
      exact MainOutcome.noConfusion hcon
    · intro c hc
      have h2 : 2 = c := by injection hc
      rw [← h2]
      decide
  · rw [if_neg h]
    refine ⟨⟨fun hcon => MainOutcome.noConfusion hcon,
      fun he => absurd (by rw [he]; rfl) h⟩, ?_, ?_⟩
    · intro recs hw
      have hr : entries.map toBuilding = recs := by injection hw
      exact ⟨Nat.one_le_iff_ne_zero.mpr h, hr.symm⟩
    · intro c hc
      exact MainOutcome.noConfusion hc

/-- C6: on the anchor lines `["3294 Molenstede", "'t Kroonrad"]` the title
is `"'t Kroonrad"` (the postal-pattern line is deprioritized) and the
description is `"3294 Molenstede"`; in general the computed title is exactly
the spec's rule — the first non-postal line of length at most 80, else the
very first line, else null. -/
theorem claim6_title_description_example :
    pickTitle ["3294 Molenstede", "'t Kroonrad"] = some "'t Kroonrad" ∧
    pickDescription ["3294 Molenstede", "'t Kroonrad"]
        (pickTitle ["3294 Molenstede", "'t Kroonrad"]) = some "3294 Molenstede" ∧
    ∀ texts, pickTitle texts = specTitle (anchorLines texts) := by
  refine ⟨by decide, by decide, ?_⟩
  intro texts
  unfold pickTitle specTitle
  rw [find?_filter_and]

theorem ne_empty_of_isEmpty_false (s : String) (h : s.isEmpty = false) : s ≠ "" := by
  intro hc
  subst hc
  exact absurd h (by decide)

/-- Soundness of the image selection: whatever `pickPreviewImage` returns
is the `src` of one of the anchor's images, is non-empty, and is never
classified decorative. -/
theorem pickPreviewImage_sound (imgs : List Img) (s : String)
    (h : pickPreviewImage imgs = some s) :
    ∃ img, img ∈ imgs ∧ img.src = some s ∧
      isDecorationImg s (img.alt.getD "") = false ∧ s ≠ "" := by
  simp only [pickPreviewImage] at h
  cases hp : imgs.find? (fun img => imgUsable img && isPreferredThumb (img.src.getD "")) with
  | some img =>
    rw [hp] at h
    have h1 : (if jsTruthy img.src = true then img.src else none) = some s := h
    by_cases ht : jsTruthy img.src = true
    · rw [if_pos ht] at h1
      have hpred := List.find?_some hp
      rw [Bool.and_eq_true] at hpred
      have husable := hpred.1
      unfold imgUsable at husable
      rw [h1] at husable
      simp only [Option.getD_some] at husable
      rw [Bool.and_eq_true] at husable
      refine ⟨img, List.mem_of_find?_eq_some hp, h1, ?_, ?_⟩
      · cases hd : isDecorationImg s (img.alt.getD "") with
        | false => rfl
        | true =>
          have h2 := husable.2
          rw [hd] at h2
          exact absurd h2 (by decide)
      · apply ne_empty_of_isEmpty_false
        have hs1 := husable.1
        cases he : s.isEmpty with
        | false => rfl
        | true =>
          rw [he] at hs1
          exact absurd hs1 (by decide)
    · rw [if_neg ht] at h1
      exact Option.noConfusion h1
  | none =>
    rw [hp] at h
    cases hc : imgs.find? imgUsable with
    | some img =>
      rw [hc] at h
      have h1 : img.src = some s := h
      have husable := List.find?_some hc
      unfold imgUsable at husable
      rw [h1] at husable
      simp only [Option.getD_some] at husable
      rw [Bool.and_eq_true] at husable
      refine ⟨img, List.mem_of_find?_eq_some hc, h1, ?_, ?_⟩
      · cases hd : isDecorationImg s (img.alt.getD "") with
        | false => rfl
        | true =>
          have h2 := husable.2
          rw [hd] at h2
          exact absurd h2 (by decide)
      · apply ne_empty_of_isEmpty_false
        have hs1 := husable.1
        cases he : s.isEmpty with
        | false => rfl
        | true =>
          rw [he] at hs1
          exact absurd hs1 (by decide)
    | none =>
      rw [hc] at h
      have h1 : (none : Option String) = some s := h
      exact Option.noConfusion h1

/-- Refinement of the image selection: the code computes exactly the spec's
rule (filter out unusable images, prefer the first thumbnail-convention
match, else the first remaining, else null). -/
theorem pickPreviewImage_eq_spec (imgs : List Img) :
    pickPreviewImage imgs = specPreviewImage imgs := by
  unfold pickPreviewImage specPreviewImage
  rw [find?_filter_and, ← find?_eq_head?_filter]
  show (match imgs.find? (fun img => imgUsable img && isPreferredThumb (img.src.getD "")) with
    | some img => if jsTruthy img.src then img.src else none
    | none =>
      match imgs.find? imgUsable with
      | some img => img.src
      | none => none) =
    (match imgs.find? (fun img => imgUsable img && isPreferredThumb (img.src.getD "")) with
    | some img => img.src
    | none =>
      match imgs.find? imgUsable with
      | some img => img.src
      | none => none)
  cases hp : imgs.find? (fun img => imgUsable img && isPreferredThumb (img.src.getD "")) with
  | none => rfl
  | some img =>
    have hpred := List.find?_some hp
    rw [Bool.and_eq_true] at hpred
    have husable := hpred.1
    unfold imgUsable at husable
    rw [Bool.and_eq_true] at husable
    have hne : (img.src.getD "").isEmpty = false := by
      cases he : (img.src.getD "").isEmpty with
      | false => rfl
      | true =>
        have h1 := husable.1
        rw [he] at h1
        exact absurd h1 (by decide)
    have ht : jsTruthy img.src = true := by
      cases hcs : img.src with
      | none =>
        rw [hcs] at hne
        exact absurd hne (by decide)
      | some s =>
        rw [hcs] at hne
        simp only [Option.getD_some] at hne
        exact jsTruthy_some s (ne_empty_of_isEmpty_false s hne)
    show (if jsTruthy img.src then img.src else none) = img.src
    rw [if_pos ht]

/-- C7: `pickPreviewImage` implements exactly the spec's selection rule:
decorative (or src-less) images are excluded, a remaining image matching the
preview-CDN / thumbnail-naming convention is preferred, otherwise the first
remaining image is taken, otherwise null. On the medal/xano anchor the xano
thumbnail is selected (never the medal image); the preference is also
exercised against a non-decorative, non-thumbnail image listed first; and in
general any selected source is the non-empty `src` of a non-decorative image
of the anchor. -/
theorem claim7_preview_image (imgs : List Img) :
    pickPreviewImage imgs = specPreviewImage imgs ∧
    pickPreviewImage [Img.mk (some "images/medal-gold.png") none,
        Img.mk (some "https://cdn.xano.io/thumbnail_123.jpg") none] =
      some "https://cdn.xano.io/thumbnail_123.jpg" ∧
    pickPreviewImage [Img.mk (some "https://other.example/photo.png") none,
        Img.mk (some "https://cdn.xano.io/thumbnail_123.jpg") none] =
      some "https://cdn.xano.io/thumbnail_123.jpg" ∧
    (∀ s, pickPreviewImage imgs = some s →
      ∃ img, img ∈ imgs ∧ img.src = some s ∧
        isDecorationImg s (img.alt.getD "") = false ∧ s ≠ "") :=
  ⟨pickPreviewImage_eq_spec imgs, by decide, by decide,
    fun s h => pickPreviewImage_sound imgs s h⟩

/-- C9: the final record list is sorted by URL ascending; it does not depend
on the order in which the accumulated map was built (any permutation of the
accumulated records with the same — duplicate-free — URLs yields the same
output); with a positive cap it holds at most that many records, and with
cap zero it is exactly a permutation of the accumulated records. -/
theorem claim9_sorted_truncated (mx : Nat) (all all₂ : MapL)
    (hperm : (all.map Prod.snd).Perm (all₂.map Prod.snd))
    (hnodup : ((all.map Prod.snd).map (fun r => r.url)).Nodup) :
    List.Pairwise (fun a b : ListingRecord => a.url ≤ b.url) (finalizeItems mx all) ∧
    finalizeItems mx all = finalizeItems mx all₂ ∧
    (0 < mx → (finalizeItems mx all).length ≤ mx) ∧
    (mx = 0 → (finalizeItems mx all).Perm (all.map Prod.snd)) := by
  have htrans : ∀ a b c : ListingRecord, byUrlLE a b = true → byUrlLE b c = true →
      byUrlLE a c = true := by
    intro a b c hab hbc
    exact decide_eq_true (le_trans (of_decide_eq_true hab) (of_decide_eq_true hbc))
  have htotal : ∀ a b : ListingRecord, (byUrlLE a b || byUrlLE b a) = true := by
    intro a b
    unfold byUrlLE
    rcases le_total a.url b.url with h | h
    · rw [decide_eq_true h, Bool.true_or]
    · rw [decide_eq_true h, Bool.or_true]
  have hsorted : ∀ m : MapL, List.Pairwise (fun a b : ListingRecord => a.url ≤ b.url)
      ((m.map Prod.snd).mergeSort byUrlLE) := by
    intro m
    exact (List.sorted_mergeSort htrans htotal (m.map Prod.snd)).imp
      fun h => of_decide_eq_true h
  have hperm₁ : ((all.map Prod.snd).mergeSort byUrlLE).Perm (all.map Prod.snd) :=
    List.mergeSort_perm _ _
  have hperm₂ : ((all₂.map Prod.snd).mergeSort byUrlLE).Perm (all₂.map Prod.snd) :=
    List.mergeSort_perm _ _
  have hp : ((all.map Prod.snd).mergeSort byUrlLE).Perm
      ((all₂.map Prod.snd).mergeSort byUrlLE) :=
    (hperm₁.trans hperm).trans hperm₂.symm
  have hnd₁ : (((all.map Prod.snd).mergeSort byUrlLE).map (fun r => r.url)).Nodup :=
    ((hperm₁.map (fun r => r.url)).nodup_iff).mpr hnodup
  have hnd₂ : (((all₂.map Prod.snd).mergeSort byUrlLE).map (fun r => r.url)).Nodup :=
    ((hp.map (fun r => r.url)).nodup_iff).mp hnd₁
  have hstrict : ∀ m : MapL, (((m.map Prod.snd).mergeSort byUrlLE).map
        (fun r => r.url)).Nodup →
      List.Pairwise (fun a b : ListingRecord => a.url < b.url)
        ((m.map Prod.snd).mergeSort byUrlLE) := by
    intro m hnd
    have hne := List.pairwise_map.mp hnd
    exact ((hsorted m).and hne).imp fun hh => lt_of_le_of_ne hh.1 hh.2
  haveI : IsAntisymm ListingRecord (fun a b : ListingRecord => a.url < b.url) :=
    ⟨fun a b h h' => absurd (lt_trans h h') (lt_irrefl _)⟩
  have hs : (all.map Prod.snd).mergeSort byUrlLE = (all₂.map Prod.snd).mergeSort byUrlLE :=
    List.eq_of_perm_of_sorted hp (hstrict all hnd₁) (hstrict all₂ hnd₂)
  refine ⟨?_, ?_, ?_, ?_⟩
  · unfold finalizeItems
    by_cases h : 0 < mx
    · rw [if_pos h]
      exact List.Pairwise.sublist (List.take_sublist _ _) (hsorted all)
    · rw [if_neg h]
      exact hsorted all
  · unfold finalizeItems
    rw [hs]
  · intro h
    unfold finalizeItems
    rw [if_pos h, List.length_take]
    exact min_le_left _ _
  · intro h0
    subst h0
    unfold finalizeItems
    rw [if_neg (lt_irrefl 0)]
    exact hperm₁

/-- C9 witness: the theorem applied at a concrete one-record map (compared
with itself) and cap 1. -/
theorem claim9_witness :
    List.Pairwise (fun a b : ListingRecord => a.url ≤ b.url)
      (finalizeItems 1 [("https://e/locaties/12345-a/",
        ListingRecord.mk "https://e/locaties/12345-a/" (some "t") none none)]) ∧
    finalizeItems 1 [("https://e/locaties/12345-a/",
        ListingRecord.mk "https://e/locaties/12345-a/" (some "t") none none)] =
      finalizeItems 1 [("https://e/locaties/12345-a/",
        ListingRecord.mk "https://e/locaties/12345-a/" (some "t") none none)] ∧
    (0 < 1 → (finalizeItems 1 [("https://e/locaties/12345-a/",
        ListingRecord.mk "https://e/locaties/12345-a/" (some "t") none none)]).length ≤ 1) ∧
    ((1 : Nat) = 0 → (finalizeItems 1 [("https://e/locaties/12345-a/",
        ListingRecord.mk "https://e/locaties/12345-a/" (some "t") none none)]).Perm
      ([("https://e/locaties/12345-a/",
        ListingRecord.mk "https://e/locaties/12345-a/" (some "t") none none)].map Prod.snd)) :=
  claim9_sorted_truncated 1 _ _ (List.Perm.refl _) (by decide)

/-- C10 counterexample: lines `[81 copies of 'a', "1234 x"]` — every line is
postal or longer than 80 characters, yet the description (the postal line)
differs from the title (the fallback first line), refuting the claim as
stated. -/
theorem claim10_counterexample :
    isPostalLine (String.mk (List.replicate 81 'a')) = false ∧
    (String.mk (List.replicate 81 'a')).length > 80 ∧
    isPostalLine "1234 x" = true ∧
    pickDescription [String.mk (List.replicate 81 'a'), "1234 x"]
        (pickTitle [String.mk (List.replicate 81 'a'), "1234 x"]) ≠
      pickTitle [String.mk (List.replicate 81 'a'), "1234 x"] := by
  decide

/-- C10 (amended): when every non-empty line of the anchor matches the
postal pattern (not merely "postal or over 80 characters"), the title falls
back to the very first line, the description selects that same first line,
so description equals title; and on any anchor whatsoever in which at least
one postal line exists, the description is computed without consulting the
chosen title at all. -/
theorem claim10_postal_only_lines (texts : List String)
    (hne : anchorLines texts ≠ [])
    (hall : ∀ t ∈ anchorLines texts, isPostalLine t = true) :
    pickTitle texts = (anchorLines texts).head? ∧
    pickDescription texts (pickTitle texts) = pickTitle texts ∧
    (∀ texts₂ : List String, (anchorLines texts₂).any isPostalLine = true →
      ∀ t₁ t₂, pickDescription texts₂ t₁ = pickDescription texts₂ t₂) := by
  have hfind : (anchorLines texts).find?
      (fun t => !isPostalLine t && decide (t.length ≤ 80)) = none := by
    rw [List.find?_eq_none]
    intro x hx hc
    rw [Bool.and_eq_true] at hc
    have h1 := hc.1
    rw [hall x hx] at h1
    exact absurd h1 (by decide)
  have htitle : pickTitle texts = (anchorLines texts).head? := by
    simp only [pickTitle]
    rw [hfind]
  have hpostal : ∃ hd, (anchorLines texts).find? isPostalLine = some hd ∧
      (anchorLines texts).head? = some hd := by
    cases hps : anchorLines texts with
    | nil => exact absurd hps hne
    | cons hd tl =>
      refine ⟨hd, List.find?_cons_of_pos _ ?_, rfl⟩
      apply hall
      rw [hps]
      exact List.mem_cons_self _ _
  obtain ⟨hd, hfp, hhd⟩ := hpostal
  have hdesc : ∀ t, pickDescription texts t = some hd := by
    intro t
    simp only [pickDescription]
    rw [hfp]
  refine ⟨htitle, ?_, ?_⟩
  · rw [hdesc, htitle, hhd]
  · intro texts₂ hany t₁ t₂
    obtain ⟨p, hp⟩ := find?_isSome_of_any _ _ hany
    have hdesc₂ : ∀ t, pickDescription texts₂ t = some p := by
      intro t
      simp only [pickDescription]
      rw [hp]
    exact (hdesc₂ t₁).trans (hdesc₂ t₂).symm

/-- C10 witness: the amended theorem applied at two postal-only lines. -/
theorem claim10_witness :
    pickTitle ["1234 a", "5678 b"] = (anchorLines ["1234 a", "5678 b"]).head? ∧
    pickDescription ["1234 a", "5678 b"] (pickTitle ["1234 a", "5678 b"]) =
      pickTitle ["1234 a", "5678 b"] ∧
    (∀ texts₂ : List String, (anchorLines texts₂).any isPostalLine = true →
      ∀ t₁ t₂, pickDescription texts₂ t₁ = pickDescription texts₂ t₂) :=
  claim10_postal_only_lines ["1234 a", "5678 b"] (by decide) (by decide)

end Extractor
